import Mathlib

/-!
Verification of the data-normalization and derived-metric pipeline of the
streamlit-app repository (src/app.py `load_data` and
src/analise_consumo_completa.py).

The embedding models pandas float64 cell values as an inductive type
`PFloat` (NaN, +inf, -inf, or a finite rational), dataframes as lists of
record structures, and each pipeline stage (numeric conversion, date
parsing/dropping, duration conversion, sorting, tenure computation,
same-day consolidation, duplicate removal, daily-gain computation,
windowed aggregation) as an executable Lean function translated from the
corresponding source lines.  Finite float values are modelled as exact
rationals: rounding of float64 arithmetic is abstracted, but the
NaN/infinity propagation rules of the source's arithmetic are modelled
exactly, since those are what the finiteness claims are about.
-/

/-- Model of one pandas float64 cell: NaN, positive infinity, negative
infinity, or a finite value (modelled as an exact rational). -/
inductive PFloat where
  | nan : PFloat
  | pinf : PFloat
  | ninf : PFloat
  | fin : ℚ → PFloat
deriving DecidableEq, Repr

/-- Subtraction on pandas float values, following IEEE-754 special-value
rules: NaN propagates, `inf - inf = NaN`, `inf - finite = inf`, etc. -/
def psub : PFloat → PFloat → PFloat
  | .nan, _ => .nan
  | _, .nan => .nan
  | .pinf, .pinf => .nan
  | .pinf, _ => .pinf
  | .ninf, .ninf => .nan
  | .ninf, _ => .ninf
  | .fin _, .pinf => .ninf
  | .fin _, .ninf => .pinf
  | .fin a, .fin b => .fin (a - b)

/-- Addition on pandas float values (used by the mean aggregation),
following IEEE-754 special-value rules. -/
def padd : PFloat → PFloat → PFloat
  | .nan, _ => .nan
  | _, .nan => .nan
  | .pinf, .ninf => .nan
  | .ninf, .pinf => .nan
  | .pinf, _ => .pinf
  | _, .pinf => .pinf
  | .ninf, _ => .ninf
  | _, .ninf => .ninf
  | .fin a, .fin b => .fin (a + b)

/-- Division on pandas float values, following IEEE-754 special-value
rules: NaN propagates, `x / 0` is `±inf` for nonzero finite `x` (the
divisor `0` is the positive zero, rationals having no signed zero),
`0 / 0 = NaN`, `finite / inf = 0`, `inf / inf = NaN`. -/
def pdiv : PFloat → PFloat → PFloat
  | .nan, _ => .nan
  | _, .nan => .nan
  | .pinf, .pinf => .nan
  | .pinf, .ninf => .nan
  | .ninf, .pinf => .nan
  | .ninf, .ninf => .nan
  | .pinf, .fin b => if b < 0 then .ninf else .pinf
  | .ninf, .fin b => if b < 0 then .pinf else .ninf
  | .fin _, .pinf => .fin 0
  | .fin _, .ninf => .fin 0
  | .fin a, .fin b =>
    if b = 0 then (if a = 0 then .nan else if a < 0 then .ninf else .pinf)
    else .fin (a / b)

/-- Model of `Series.fillna(d)` on one cell: NaN becomes the finite
value `d`, everything else is unchanged. -/
def pfillna (d : ℚ) : PFloat → PFloat
  | .nan => .fin d
  | x => x

/-- Model of `Series.replace([inf, -inf], 0)` on one cell: either
infinity becomes 0, everything else is unchanged. -/
def preplaceInfZero : PFloat → PFloat
  | .pinf => .fin 0
  | .ninf => .fin 0
  | x => x

/-- A pandas float value is finite when it is neither NaN nor an
infinity. -/
def PFloat.isFinB : PFloat → Bool
  | .fin _ => true
  | _ => false

/-- A pandas float value is NaN. -/
def PFloat.isNanB : PFloat → Bool
  | .nan => true
  | _ => false

/-- Model of the pandas `mean` aggregation over a group of cells: NaN
entries are skipped; the mean of the remaining entries is their sum
divided by their count; an all-NaN (or empty) group yields NaN. -/
def pmean (l : List PFloat) : PFloat :=
  let vs := l.filter (fun x => !x.isNanB)
  if vs.isEmpty then .nan
  else pdiv (vs.foldr padd (.fin 0)) (.fin vs.length)

/-- Decimal digit value of a character, by code point. -/
def digitVal? (c : Char) : Option ℕ :=
  let n := c.toNat
  if 48 ≤ n ∧ n ≤ 57 then some (n - 48) else none

/-- Value of a digit string read left to right onto an accumulator;
fails if any character is not a decimal digit. -/
def digitsValAux : List Char → ℕ → Option ℕ
  | [], acc => some acc
  | c :: cs, acc =>
    match digitVal? c with
    | some d => digitsValAux cs (10 * acc + d)
    | none => none

/-- Split a character list on a separator character (like
`str.split(sep)`: `n` separators produce `n+1` pieces). -/
def splitOnChar (sep : Char) : List Char → List (List Char)
  | [] => [[]]
  | c :: cs =>
    if c = sep then [] :: splitOnChar sep cs
    else
      match splitOnChar sep cs with
      | [] => [[c]]
      | p :: ps => (c :: p) :: ps

/-- Strip one leading sign character, returning whether the value is
negated and the remaining characters. -/
def stripSign : List Char → Bool × List Char
  | '-' :: cs => (true, cs)
  | '+' :: cs => (false, cs)
  | cs => (false, cs)

/-- Model of Python `int(s)` on a stripped literal: an optional sign
followed by at least one decimal digit (surrounding whitespace and
underscore separators, which Python also tolerates, are not modelled). -/
def parseIntQ (cs : List Char) : Option ℤ :=
  let p := stripSign cs
  if p.2.isEmpty then none
  else (digitsValAux p.2 0).map (fun n => if p.1 then -(n : ℤ) else (n : ℤ))

/-- Model of the numeric-literal acceptance of `pd.to_numeric` /
Python `float`: an optional sign, an integer part and at most one
decimal point with a fractional part, at least one digit overall.
Exponent notation and surrounding whitespace are not modelled; any
string with two or more decimal points fails, as in the source. -/
def parseFloatQ (cs : List Char) : Option ℚ :=
  match splitOnChar '.' cs with
  | [ip] =>
    let p := stripSign ip
    if p.2.isEmpty then none
    else (digitsValAux p.2 0).map
      (fun n => if p.1 then -(n : ℚ) else (n : ℚ))
  | [ip, fp] =>
    let p := stripSign ip
    if p.2.isEmpty ∧ fp.isEmpty then none
    else
      match digitsValAux p.2 0, digitsValAux fp 0 with
      | some n, some f =>
        let v : ℚ := (n : ℚ) + (f : ℚ) / (10 : ℚ) ^ fp.length
        some (if p.1 then -v else v)
      | _, _ => none
  | _ => none

/-- Replacement of every comma by a decimal point in a character, the
per-character action of `Series.str.replace(',', '.')`
(src/app.py line 31, src/analise_consumo_completa.py line 19). -/
def commaToDot (c : Char) : Char := if c = ',' then '.' else c

/-- Model of one cell of
`pd.to_numeric(df[col].astype(str).str.replace(',', '.'), errors='coerce')`
(src/app.py line 31): a missing cell stays NaN (its string form "nan"
converts back to NaN), every comma is replaced by a dot, and a value
that then fails numeric conversion is coerced to NaN rather than
raising. -/
def to_numeric_cell (c : Option String) : PFloat :=
  match c with
  | none => .nan
  | some s =>
    match parseFloatQ (s.data.map commaToDot) with
    | some q => .fin q
    | none => .nan

/-- Raw duration-like cell value as seen by `tempo_para_minutos`: a null
cell, a string, a structured time-of-day value exposing
hour/minute/second components (`datetime.time`), or a value of any
other shape. -/
inductive TVal where
  | null : TVal
  | str : String → TVal
  | tod (h m s : ℕ) : TVal
  | other : TVal
deriving DecidableEq, Repr

/-- Model of `tempo_para_minutos` (src/app.py lines 45-57,
src/analise_consumo_completa.py lines 34-46): null yields 0; a string is
split on ':' and must give exactly three integer parts `h:m:s`, yielding
`h*60 + m + s/60`, any failure being caught and yielding 0; a
time-of-day value yields the same formula on its components; any other
shape yields 0.  The function is total: no input raises. -/
def tempo_para_minutos : TVal → ℚ
  | .null => 0
  | .str s =>
    match splitOnChar ':' s.data with
    | [a, b, c] =>
      match parseIntQ a, parseIntQ b, parseIntQ c with
      | some h, some m, some sec => (h : ℚ) * 60 + (m : ℚ) + (sec : ℚ) / 60
      | _, _, _ => 0
    | _ => 0
  | .tod h m s => (h : ℚ) * 60 + (m : ℚ) + (s : ℚ) / 60
  | .other => 0


/-- Characters compare by code point, as Python compares the characters
of strings. -/
def charLtb (a b : Char) : Bool := a.toNat < b.toNat

/-- Lexicographic strict order on character lists by code point, the
order Python and pandas use to sort string values. -/
def charListLtb : List Char → List Char → Bool
  | [], [] => false
  | [], _ :: _ => true
  | _ :: _, [] => false
  | a :: as, b :: bs => if a = b then charListLtb as bs else charLtb a b

/-- Lexicographic strict order on strings by code point. -/
def strLtb (a b : String) : Bool := charListLtb a.data b.data

theorem charListLtb_irrefl (l : List Char) : charListLtb l l = false := by
  induction l with
  | nil => rfl
  | cons c cs ih => simp [charListLtb, ih]

theorem charLtb_trans {a b c : Char} (h1 : charLtb a b = true)
    (h2 : charLtb b c = true) : charLtb a c = true := by
  simp only [charLtb, decide_eq_true_eq] at *
  exact Nat.lt_trans h1 h2

theorem char_toNat_inj {a b : Char} (h : a.toNat = b.toNat) : a = b := by
  have := congrArg Char.ofNat h
  rwa [Char.ofNat_toNat, Char.ofNat_toNat] at this

theorem charLtb_connex {a b : Char} (h : a ≠ b) :
    charLtb a b = true ∨ charLtb b a = true := by
  simp only [charLtb, decide_eq_true_eq]
  rcases Nat.lt_trichotomy a.toNat b.toNat with hlt | heq | hgt
  · exact Or.inl hlt
  · exact absurd (char_toNat_inj heq) h
  · exact Or.inr hgt

theorem charListLtb_trans :
    ∀ (a b c : List Char), charListLtb a b = true → charListLtb b c = true →
      charListLtb a c = true := by
  intro a
  induction a with
  | nil =>
    intro b c h1 h2
    cases b with
    | nil => simp [charListLtb] at h1
    | cons y ys =>
      cases c with
      | nil => simp [charListLtb] at h2
      | cons z zs => rfl
  | cons x xs ih =>
    intro b c h1 h2
    cases b with
    | nil => simp [charListLtb] at h1
    | cons y ys =>
      cases c with
      | nil => simp [charListLtb] at h2
      | cons z zs =>
        simp only [charListLtb] at h1 h2 ⊢
        by_cases hxy : x = y
        · subst hxy
          simp only [if_pos rfl] at h1
          by_cases hyz : x = z
          · subst hyz
            simp only [if_pos rfl] at h2 ⊢
            exact ih ys zs h1 h2
          · simp only [if_neg hyz] at h2 ⊢
            exact h2
        · simp only [if_neg hxy] at h1
          by_cases hyz : y = z
          · subst hyz
            simp only [if_neg hxy] at *
            exact h1
          · simp only [if_neg hyz] at h2
            by_cases hxz : x = z
            · subst hxz
              have := charLtb_trans h1 h2
              simp [charLtb] at this
            · simp only [if_neg hxz]
              exact charLtb_trans h1 h2

theorem charListLtb_connex :
    ∀ (a b : List Char), a ≠ b →
      charListLtb a b = true ∨ charListLtb b a = true := by
  intro a
  induction a with
  | nil =>
    intro b hne
    cases b with
    | nil => exact absurd rfl hne
    | cons y ys => exact Or.inl rfl
  | cons x xs ih =>
    intro b hne
    cases b with
    | nil => exact Or.inr rfl
    | cons y ys =>
      by_cases hxy : x = y
      · subst hxy
        have hys : xs ≠ ys := fun h => hne (by rw [h])
        simpa [charListLtb] using ih ys hys
      · have := charLtb_connex hxy
        rcases this with h | h
        · exact Or.inl (by simp [charListLtb, if_neg hxy, h])
        · exact Or.inr (by
            simp [charListLtb, if_neg (fun hyx : y = x => hxy hyx.symm), h])

theorem str_data_inj {a b : String} (h : a.data = b.data) : a = b := by
  cases a
  cases b
  exact congrArg String.mk h

theorem strLtb_irrefl (a : String) : strLtb a a = false :=
  charListLtb_irrefl a.data

theorem strLtb_trans {a b c : String} (h1 : strLtb a b = true)
    (h2 : strLtb b c = true) : strLtb a c = true :=
  charListLtb_trans a.data b.data c.data h1 h2

theorem strLtb_connex {a b : String} (h : a ≠ b) :
    strLtb a b = true ∨ strLtb b a = true :=
  charListLtb_connex a.data b.data (fun hd => h (str_data_inj hd))

/-- Sort key comparison used by `df.sort_values(['TAG', 'Data'])`
(src/app.py line 66, src/analise_consumo_completa.py line 60) and by the
sorted group keys of `df.groupby(['TAG', 'Data'])` (src/app.py
line 72): lexicographic on the (TAG string, date) pair. -/
def keyLeb (a b : String × ℤ) : Bool :=
  if a.1 = b.1 then a.2 ≤ b.2 else strLtb a.1 b.1

/-- Propositional form of `keyLeb`, for the sorting lemmas. -/
def keyLe (a b : String × ℤ) : Prop := keyLeb a b = true

instance : DecidableRel keyLe := fun a b => instDecidableEqBool (keyLeb a b) true

instance : IsTotal (String × ℤ) keyLe := by
  constructor
  intro a b
  unfold keyLe keyLeb
  by_cases h : a.1 = b.1
  · rcases Int.le_total a.2 b.2 with h2 | h2
    · exact Or.inl (by simp [h, h2])
    · exact Or.inr (by simp [h.symm, h2])
  · rcases strLtb_connex h with hs | hs
    · exact Or.inl (by rw [if_neg h]; exact hs)
    · exact Or.inr (by
        rw [if_neg (fun hh : b.1 = a.1 => h hh.symm)]; exact hs)

instance : IsTrans (String × ℤ) keyLe := by
  constructor
  intro a b c hab hbc
  unfold keyLe keyLeb at *
  by_cases h1 : a.1 = b.1
  · simp only [if_pos h1, decide_eq_true_eq] at hab
    by_cases h2 : b.1 = c.1
    · simp only [if_pos h2, decide_eq_true_eq] at hbc
      simp [h1.trans h2, le_trans hab hbc]
    · simp only [if_neg h2] at hbc
      have h3 : a.1 ≠ c.1 := fun hac => h2 (h1.symm.trans hac)
      rw [if_neg h3, h1]
      exact hbc
  · simp only [if_neg h1] at hab
    by_cases h2 : b.1 = c.1
    · have h3 : a.1 ≠ c.1 := fun hac => h1 (hac.trans h2.symm)
      rw [if_neg h3, ← h2]
      exact hab
    · simp only [if_neg h2] at hbc
      have h4 : a.1 ≠ c.1 := by
        intro hac
        have := strLtb_trans hab hbc
        rw [hac] at this
        simp [strLtb_irrefl] at this
      simp [if_neg h4, strLtb_trans hab hbc]

/-- Raw date cell as it stands after
`pd.to_datetime(df['Data'], dayfirst=True, errors='coerce')`
(src/app.py line 39, src/analise_consumo_completa.py line 25): the cell
either parsed to a timestamp (modelled as whole minutes since an epoch)
or coerced to NaT.  The day-first string grammar accepted by pandas is
not itself modelled: each cell carries its parse outcome. -/
inductive RawDate where
  | parsed (t : ℤ) : RawDate
  | invalid : RawDate
deriving DecidableEq, Repr

/-- One raw spreadsheet row of `Planilha completa.xlsx` as read by
`pd.read_excel`, restricted to the columns the pipeline touches.
Numeric cells are the raw cell text (`none` = empty/NaN cell); the date
cell carries its `pd.to_datetime` outcome; duration cells carry the
shapes `tempo_para_minutos` distinguishes. -/
structure RawRow where
  tag : String
  date : RawDate
  cocho : Option String
  bebedouro : Option String
  peso : Option String
  tempoBeb : TVal
  tempoCocho : TVal
deriving DecidableEq, Repr

/-- One dataframe row after numeric conversion, date
parsing/normalization/dropping, and duration conversion (src/app.py
lines 27-62): `data` is the normalized date in minutes since the epoch
(a multiple of 1440 in the app pipeline). -/
structure NRow where
  tag : String
  data : ℤ
  cocho : PFloat
  bebedouro : PFloat
  peso : PFloat
  tempoBebMin : ℚ
  tempoCochoMin : ℚ
deriving DecidableEq, Repr

/-- Row after the `dias_permanencia` column is added (src/app.py
line 67). -/
structure DRow extends NRow where
  dias : ℤ
deriving DecidableEq, Repr

/-- Row after the `GPD` column is added (src/app.py lines 87-98). -/
structure GRow extends DRow where
  gpd : PFloat
deriving DecidableEq, Repr

/-- Model of `Timedelta.days`: whole days of a duration in minutes,
rounded toward negative infinity (floor division). -/
def floorDays (t : ℤ) : ℤ := t.fdiv 1440

/-- Model of `Series.dt.normalize()` (src/app.py line 39): truncate a
timestamp to midnight of its day. -/
def normalizeDate (t : ℤ) : ℤ := 1440 * (t.fdiv 1440)

/-- Record normalization of src/app.py lines 27-62: numeric columns are
comma-to-dot converted with coercion to NaN on failure, the date column
is parsed day-first, normalized to midnight, and rows whose date failed
to parse are dropped, and the duration columns are converted to minutes
with `tempo_para_minutos`. -/
def normalizeRows (rows : List RawRow) : List NRow :=
  rows.filterMap (fun r =>
    match r.date with
    | .invalid => none
    | .parsed t => some {
        tag := r.tag
        data := normalizeDate t
        cocho := to_numeric_cell r.cocho
        bebedouro := to_numeric_cell r.bebedouro
        peso := to_numeric_cell r.peso
        tempoBebMin := tempo_para_minutos r.tempoBeb
        tempoCochoMin := tempo_para_minutos r.tempoCocho })

/-- Sort key of a normalized row. -/
def nkey (r : NRow) : String × ℤ := (r.tag, r.data)

/-- Ordering of normalized rows by (TAG, Data). -/
def nrowLe (a b : NRow) : Prop := keyLe (nkey a) (nkey b)

instance : DecidableRel nrowLe := fun a b =>
  instDecidableEqBool (keyLeb (nkey a) (nkey b)) true

instance : IsTotal NRow nrowLe :=
  ⟨fun a b => IsTotal.total (r := keyLe) (nkey a) (nkey b)⟩

instance : IsTrans NRow nrowLe :=
  ⟨fun _ _ _ hab hbc => IsTrans.trans (r := keyLe) _ _ _ hab hbc⟩

/-- Model of `df.sort_values(['TAG', 'Data'])` (src/app.py line 66):
stable sort of the rows by the (TAG, Data) key. -/
def sortRows (l : List NRow) : List NRow := l.insertionSort nrowLe

/-- Minimum date among the rows of one TAG, the per-group
`x.min()` of src/app.py line 67; `none` when the TAG has no rows. -/
def minData (rows : List NRow) (t : String) : Option ℤ :=
  ((rows.filter (fun r => r.tag = t)).map (fun r => r.data)).min?

/-- Model of
`df.groupby('TAG')['Data'].transform(lambda x: (x - x.min()).dt.days)`
(src/app.py line 67, src/analise_consumo_completa.py line 61): each row
receives the floor of the days elapsed between its date and the
earliest date of its TAG group. -/
def addDias (l : List NRow) : List DRow :=
  l.map (fun r =>
    { toNRow := r, dias := floorDays (r.data - (minData l r.tag).getD 0) })

/-- Group key of a row for `df.groupby(['TAG', 'Data'])` (src/app.py
line 72). -/
def dkey (r : DRow) : String × ℤ := (r.tag, r.data)

/-- Arithmetic mean of a list of rationals (the pandas `mean` of a float
column containing no NaN). -/
def qmean (l : List ℚ) : ℚ := l.sum / l.length

/-- The single consolidated row of one (TAG, Data) group: the `agg` of
src/app.py lines 72-79 takes the NaN-skipping mean of each numeric
column and the first `dias_permanencia` value of the group. -/
def aggRow (k : String × ℤ) (g : List DRow) : DRow :=
  { tag := k.1
    data := k.2
    cocho := pmean (g.map (fun r => r.cocho))
    bebedouro := pmean (g.map (fun r => r.bebedouro))
    peso := pmean (g.map (fun r => r.peso))
    tempoBebMin := qmean (g.map (fun r => r.tempoBebMin))
    tempoCochoMin := qmean (g.map (fun r => r.tempoCochoMin))
    dias := (g.map (fun r => r.dias)).headD 0 }

/-- Model of
`df.groupby(['TAG', 'Data']).agg({...}).reset_index()` (src/app.py
lines 72-79): one output row per distinct (TAG, Data) key, keys in
sorted order (pandas groupby sorts group keys), each aggregated with
`aggRow` over the rows of its group in dataframe order. -/
def consolidate (l : List DRow) : List DRow :=
  ((l.map dkey).dedup.insertionSort keyLe).map
    (fun k => aggRow k (l.filter (fun r => dkey r = k)))

/-- Accumulator pass for `drop_duplicates(subset=['TAG','Data'],
keep='first')`. -/
def dropDupFirstAux (seen : List (String × ℤ)) : List DRow → List DRow
  | [] => []
  | r :: rs =>
    if dkey r ∈ seen then dropDupFirstAux seen rs
    else r :: dropDupFirstAux (dkey r :: seen) rs

/-- Model of
`df.drop_duplicates(subset=['TAG', 'Data'], keep='first')`
(src/app.py line 85): keep the first occurrence of each (TAG, Data) key
in dataframe order and discard the rest. -/
def drop_duplicates_first (l : List DRow) : List DRow := dropDupFirstAux [] l

/-- The last earlier row of the same TAG, which is what
`df.groupby('TAG')[col].shift(1)` and `.diff()` read for the current
row (src/app.py lines 89-90): `seen` is the list of rows preceding the
current one in dataframe order. -/
def lastSameTag (seen : List DRow) (t : String) : Option DRow :=
  (seen.filter (fun r => r.tag = t)).getLast?

/-- GPD of one row in src/app.py lines 89-93:
`peso_anterior = groupby('TAG')['Peso médio'].shift(1)` (NaN on the
first row of a TAG), `dias_diff = groupby('TAG')['dias_permanencia']
.diff()` (NaN on the first row of a TAG), then
`GPD = (Peso médio - peso_anterior) / dias_diff.fillna(1)` followed by
`GPD.fillna(0).replace([inf, -inf], 0)`. -/
def gpdOf (prev : Option DRow) (r : DRow) : PFloat :=
  let pesoAnterior : PFloat :=
    match prev with
    | none => .nan
    | some p => p.peso
  let diasDiff : PFloat :=
    match prev with
    | none => .nan
    | some p => .fin ((r.dias - p.dias : ℤ) : ℚ)
  preplaceInfZero (pfillna 0 (pdiv (psub r.peso pesoAnterior) (pfillna 1 diasDiff)))

/-- Walk the dataframe in order, attaching to each row the gain value
computed by `g` from the previous row of the same TAG. -/
def addGPDAux (g : Option DRow → DRow → PFloat) :
    List DRow → List DRow → List GRow
  | _, [] => []
  | seen, r :: rs =>
    { toDRow := r, gpd := g (lastSameTag seen r.tag) r }
      :: addGPDAux g (seen ++ [r]) rs

/-- The GPD stage of src/app.py lines 87-98 over the whole dataframe. -/
def addGPD (l : List DRow) : List GRow := addGPDAux gpdOf [] l

/-- Model of the whole `load_data` normalization of src/app.py
lines 27-100 after the spreadsheet is read: numeric conversion, TAG as
string, date parsing with dropping of unparseable dates, duration
conversion, sort by (TAG, Data), `dias_permanencia`, consolidation by
(TAG, Data) mean, defensive duplicate removal, and GPD. -/
def load_data (rows : List RawRow) : List GRow :=
  addGPD (drop_duplicates_first (consolidate (addDias (sortRows (normalizeRows rows)))))

/-- Ordering of TAG strings (pandas `groupby('TAG')` sorts its group
keys). -/
def strLeb (a b : String) : Bool := if a = b then true else strLtb a b

/-- Propositional form of `strLeb`. -/
def strLe (a b : String) : Prop := strLeb a b = true

instance : DecidableRel strLe := fun a b =>
  instDecidableEqBool (strLeb a b) true

instance : IsTotal String strLe := by
  constructor
  intro a b
  unfold strLe strLeb
  by_cases h : a = b
  · exact Or.inl (by simp [h])
  · rcases strLtb_connex h with hs | hs
    · exact Or.inl (by rw [if_neg h]; exact hs)
    · exact Or.inr (by rw [if_neg (fun hh : b = a => h hh.symm)]; exact hs)

instance : IsTrans String strLe := by
  constructor
  intro a b c hab hbc
  unfold strLe strLeb at *
  by_cases h1 : a = b
  · subst h1
    exact hbc
  · simp only [if_neg h1] at hab
    by_cases h2 : b = c
    · subst h2
      rw [if_neg h1]
      exact hab
    · simp only [if_neg h2] at hbc
      by_cases h3 : a = c
      · subst h3
        have := strLtb_trans hab hbc
        rw [strLtb_irrefl] at this
        exact absurd this (by simp)
      · rw [if_neg h3]
        exact strLtb_trans hab hbc

/-- Window and TAG filtering of src/app.py lines 129-138:
`df_filtered = df[(df['Data'] >= start) & (df['Data'] <= end)]` then
`df_selected = df_filtered[df_filtered['TAG'].isin(selected_tags)]`. -/
def df_selected (df : List GRow) (s e : ℤ) (sel : List String) : List GRow :=
  (df.filter (fun r => decide (s ≤ r.data) && decide (r.data ≤ e))).filter
    (fun r => sel.contains r.tag)

/-- One row of the per-TAG summary: the `Média` line of
`resumo_estatisticas` (src/app.py lines 146-154) for each analyzed
column (the median and standard-deviation lines aggregate the same
groups and are not needed by the claims). -/
structure ResumoRow where
  tag : String
  mediaCocho : PFloat
  mediaBebedouro : PFloat
  mediaPeso : PFloat
  mediaGPD : PFloat
deriving DecidableEq, Repr

/-- Model of
`df_selected.groupby('TAG')[colunas_analise].apply(resumo_estatisticas)`
(src/app.py line 154): pandas groupby produces one group per TAG value
that actually occurs in `df_selected`, keys sorted; a TAG with no
selected rows yields no group and hence no summary row. -/
def resumo (df : List GRow) (s e : ℤ) (sel : List String) : List ResumoRow :=
  (((df_selected df s e sel).map (fun r => r.tag)).dedup.insertionSort strLe).map
    (fun t =>
      let g := (df_selected df s e sel).filter (fun r => r.tag = t)
      { tag := t
        mediaCocho := pmean (g.map (fun r => r.cocho))
        mediaBebedouro := pmean (g.map (fun r => r.bebedouro))
        mediaPeso := pmean (g.map (fun r => r.peso))
        mediaGPD := pmean (g.map (fun r => r.gpd)) })

/-- Which source columns are present in the spreadsheet, for the
schema-tolerance behavior of src/analise_consumo_completa.py: each
optional column is converted only `if col in df.columns`, with a
printed notice otherwise, while a missing TAG column raises. -/
structure Schema where
  hasTAG : Bool
  hasCocho : Bool
  hasBebedouro : Bool
  hasPeso : Bool
  hasTempoBeb : Bool
  hasTempoCocho : Bool
deriving DecidableEq, Repr

/-- Model of one cell of
`df[col].astype(str).str.replace(',', '.').astype(float)`
(src/analise_consumo_completa.py line 19): unlike the app's
`errors='coerce'` conversion, `astype(float)` raises on a value that
fails conversion; an empty/NaN cell converts back to NaN via the string
"nan". -/
def astype_float_cell (c : Option String) : Except String PFloat :=
  match c with
  | none => .ok .nan
  | some s =>
    match parseFloatQ (s.data.map commaToDot) with
    | some q => .ok (.fin q)
    | none => .error s

/-- One numeric field of the analise script: converted when its column
is present, otherwise left out of the dataframe (modelled as NaN). -/
def analiseNumericField (present : Bool) (c : Option String) :
    Except String PFloat :=
  if present then astype_float_cell c else .ok .nan

/-- The printed tolerance notice for one missing column
(src/analise_consumo_completa.py lines 21 and 53, diacritics and quote
characters of the literal message elided). -/
def avisoColuna (nome : String) : String :=
  "Aviso: coluna " ++ nome ++ " nao encontrada."

/-- The tolerance notices printed by the numeric-conversion loop and
the duration-conversion loop of src/analise_consumo_completa.py
lines 16-21 and 48-53, one per absent optional column. -/
def analiseWarnings (sch : Schema) : List String :=
  (if sch.hasCocho then [] else [avisoColuna "Consumo de materia natural_Cocho"]) ++
  (if sch.hasBebedouro then [] else [avisoColuna "Consumo_bebedouro"]) ++
  (if sch.hasPeso then [] else [avisoColuna "Peso medio"]) ++
  (if sch.hasTempoBeb then [] else [avisoColuna "tempo de consumo_bebedouro"]) ++
  (if sch.hasTempoCocho then [] else [avisoColuna "Tempo de consumo_cocho"])

/-- Count of unparseable dates,
`num_datas_invalidas = df['Data'].isna().sum()`
(src/analise_consumo_completa.py line 26). -/
def num_datas_invalidas (rows : List RawRow) : ℕ :=
  (rows.filter (fun r => decide (r.date = RawDate.invalid))).length

/-- Model of the date-parsing block of src/analise_consumo_completa.py
lines 25-30: after day-first parsing with `errors='coerce'`, the number
of NaT dates is counted and reported, and the rows with NaT dates are
dropped.  Returns the retained rows and the reported count. -/
def analiseDates (rows : List RawRow) : List RawRow × ℕ :=
  (rows.filter (fun r => decide (r.date ≠ RawDate.invalid)), num_datas_invalidas rows)

/-- The three numeric fields of one row under the numeric-conversion
loop of src/analise_consumo_completa.py lines 16-21: the first failing
conversion raises. -/
def analiseNumericRow (sch : Schema) (r : RawRow) :
    Except String (PFloat × PFloat × PFloat) :=
  match analiseNumericField sch.hasCocho r.cocho,
      analiseNumericField sch.hasBebedouro r.bebedouro,
      analiseNumericField sch.hasPeso r.peso with
  | .ok c, .ok b, .ok p => .ok (c, b, p)
  | .error e, _, _ => .error e
  | .ok _, .error e, _ => .error e
  | .ok _, .ok _, .error e => .error e

/-- Normalization of one row by the analise script (numeric conversion
that may raise, date-parse outcome, duration conversion): `.ok none`
means the row is dropped for an unparseable date. -/
def analiseNRow (sch : Schema) (r : RawRow) : Except String (Option NRow) :=
  match analiseNumericRow sch r with
  | .error e => .error e
  | .ok (c, b, p) =>
    match r.date with
    | .invalid => .ok none
    | .parsed t => .ok (some {
        tag := r.tag
        data := t
        cocho := c
        bebedouro := b
        peso := p
        tempoBebMin := if sch.hasTempoBeb then tempo_para_minutos r.tempoBeb else 0
        tempoCochoMin := if sch.hasTempoCocho then tempo_para_minutos r.tempoCocho else 0 })

/-- GPD of one row in src/analise_consumo_completa.py lines 65-72: when
the weight column is present,
`GPD = (Peso médio - peso_anterior) / dias_diff` followed by
`GPD.fillna(0)` — without the app's `dias_diff.fillna(1)` and without
the `replace([inf, -inf], 0)` guard; when the weight column is absent,
`df['GPD'] = 0`. -/
def gpdOfAnalise (hasPeso : Bool) (prev : Option DRow) (r : DRow) : PFloat :=
  if hasPeso then
    let pesoAnterior : PFloat :=
      match prev with
      | none => .nan
      | some p => p.peso
    let diasDiff : PFloat :=
      match prev with
      | none => .nan
      | some p => .fin ((r.dias - p.dias : ℤ) : ℚ)
    pfillna 0 (pdiv (psub r.peso pesoAnterior) diasDiff)
  else .fin 0

/-- Row-by-row normalization of the whole dataframe by the analise
script, stopping at the first raised conversion error (the monadic
traversal of the per-row normalization). -/
def analiseRowsM (sch : Schema) : List RawRow → Except String (List (Option NRow))
  | [] => .ok []
  | r :: rs =>
    match analiseNRow sch r, analiseRowsM sch rs with
    | .error e, _ => .error e
    | .ok _, .error e => .error e
    | .ok o, .ok os => .ok (o :: os)

/-- Model of sections 2-6 of src/analise_consumo_completa.py (numeric
conversion, date parsing and dropping, duration conversion, TAG check,
sort, `dias_permanencia`, GPD): fails like the script when a numeric
cell cannot be converted or when the TAG column is absent; on success
returns the normalized dataframe together with the printed tolerance
notices and the reported count of invalid dates.  The script does not
consolidate duplicate (TAG, Data) records and does not normalize
timestamps to midnight. -/
def analise_normalize (sch : Schema) (rows : List RawRow) :
    Except String (List GRow × List String × ℕ) :=
  match analiseRowsM sch rows with
  | .error e => .error e
  | .ok opts =>
    if sch.hasTAG then
      .ok (addGPDAux (gpdOfAnalise sch.hasPeso) [] (addDias (sortRows (opts.filterMap id))),
        analiseWarnings sch, num_datas_invalidas rows)
    else .error "Coluna TAG nao encontrada no DataFrame."

theorem guard_isFin (x : PFloat) :
    (preplaceInfZero (pfillna 0 x)).isFinB = true := by
  cases x <;> rfl

theorem gpdOf_isFin (prev : Option DRow) (r : DRow) :
    (gpdOf prev r).isFinB = true := by
  unfold gpdOf
  exact guard_isFin _

theorem addGPDAux_gpd_isFin (g : Option DRow → DRow → PFloat)
    (hg : ∀ prev r, (g prev r).isFinB = true) :
    ∀ (l seen : List DRow) (r' : GRow),
      r' ∈ addGPDAux g seen l → r'.gpd.isFinB = true := by
  intro l
  induction l with
  | nil =>
    intro seen r' h
    simp [addGPDAux] at h
  | cons r rs ih =>
    intro seen r' h
    simp only [addGPDAux, List.mem_cons] at h
    rcases h with h | h
    · subst h
      exact hg _ _
    · exact ih _ _ h

/-- C1: for every input dataset — including datasets with zero weights,
entirely-null weight fields, or multiple records for the same animal on
the same date — the daily gain value (GPD) attached to every record of
every animal's time series is a finite number, never positive or
negative infinity and never NaN.  Proved both for the full `load_data`
pipeline over arbitrary raw rows and, more generally, for the GPD stage
over an arbitrary dataframe with arbitrary (even infinite or NaN)
weight and tenure values: the `fillna(0).replace([inf,-inf], 0)` guard
of src/app.py line 93 makes every GPD cell finite. -/
theorem C1_gpd_always_finite :
    (∀ (l : List DRow) (r : GRow), r ∈ addGPD l → r.gpd.isFinB = true) ∧
    (∀ (rows : List RawRow) (r : GRow), r ∈ load_data rows → r.gpd.isFinB = true) := by
  constructor
  · intro l r h
    exact addGPDAux_gpd_isFin gpdOf gpdOf_isFin l [] r h
  · intro rows r h
    exact addGPDAux_gpd_isFin gpdOf gpdOf_isFin _ [] r h

/-- Witness for C1 on a concrete dataset: one animal, one record with
weight 300 on day 0. -/
theorem C1_witness :
    PFloat.isFinB (GRow.mk (DRow.mk (NRow.mk "A" 0 .nan .nan (.fin 300) 0 0) 0) (.fin 0)).gpd = true :=
  C1_gpd_always_finite.2 [⟨"A", .parsed 0, none, none, some "300", .null, .null⟩] _
    (by with_unfolding_all decide)

theorem gpdOf_none (r : DRow) : gpdOf none r = .fin 0 := by
  unfold gpdOf
  cases r.peso <;> rfl

theorem gpdOf_some (r p : DRow) (w0 w1 : ℚ) (hp : p.peso = .fin w0)
    (hr : r.peso = .fin w1) (hd : r.dias ≠ p.dias) :
    gpdOf (some p) r = .fin ((w1 - w0) / ((r.dias - p.dias : ℤ) : ℚ)) := by
  unfold gpdOf
  dsimp only
  rw [hp, hr]
  have hΔ : ((r.dias - p.dias : ℤ) : ℚ) ≠ 0 := by
    intro h
    exact hd (Int.sub_eq_zero.mp (by exact_mod_cast h))
  simp only [psub, pfillna, pdiv, if_neg hΔ, preplaceInfZero]

theorem addGPDAux_get (g : Option DRow → DRow → PFloat) :
    ∀ (pre seen : List DRow) (r : DRow) (post : List DRow),
      (addGPDAux g seen (pre ++ r :: post))[pre.length]?
        = some ⟨r, g (lastSameTag (seen ++ pre) r.tag) r⟩ := by
  intro pre
  induction pre with
  | nil =>
    intro seen r post
    simp [addGPDAux]
  | cons q pre' ih =>
    intro seen r post
    simp only [List.cons_append, addGPDAux, List.length_cons,
      List.getElem?_cons_succ, List.append_eq]
    rw [ih (seen ++ [q]) r post, List.append_assoc]
    rfl

/-- C2: for every animal and every record index i>0 in that animal's
time series (where the tenure-difference denominator is nonzero and
both weights are present), the daily gain equals
`(weight[i] - weight[i-1]) / (tenure_days[i] - tenure_days[i-1])`, and
the gain of the first record of each animal (no earlier record of the
same TAG) is 0; and an animal with a record at tenure day 0 with weight
300 and a record at tenure day 10 with weight 320 gets daily gain 2.0
on the second record through the full `load_data` pipeline. -/
theorem C2_gain_formula :
    (∀ (pre post : List DRow) (r p : DRow) (w0 w1 : ℚ),
        lastSameTag pre r.tag = some p →
        p.peso = .fin w0 → r.peso = .fin w1 → r.dias ≠ p.dias →
        (addGPD (pre ++ r :: post))[pre.length]?
          = some ⟨r, .fin ((w1 - w0) / ((r.dias - p.dias : ℤ) : ℚ))⟩) ∧
    (∀ (pre post : List DRow) (r : DRow),
        lastSameTag pre r.tag = none →
        (addGPD (pre ++ r :: post))[pre.length]? = some ⟨r, .fin 0⟩) ∧
    ((load_data [⟨"A", .parsed 0, none, none, some "300", .null, .null⟩,
                 ⟨"A", .parsed 14400, none, none, some "320", .null, .null⟩]).map
        (fun r => r.gpd) = [.fin 0, .fin 2]) := by
  refine ⟨?_, ?_, ?_⟩
  · intro pre post r p w0 w1 hlast hp hr hd
    unfold addGPD
    rw [addGPDAux_get]
    simp only [List.nil_append, hlast]
    rw [gpdOf_some r p w0 w1 hp hr hd]
  · intro pre post r hlast
    unfold addGPD
    rw [addGPDAux_get]
    simp only [List.nil_append, hlast]
    rw [gpdOf_none]
  · with_unfolding_all decide

/-- Witness for C2 on concrete rows: the animal "A" has a previous
record with weight 300 at tenure 0 and a current record with weight
320 at tenure 10; its gain on the second record is 2. -/
theorem C2_witness :
    (addGPD ([⟨⟨"A", 0, .nan, .nan, .fin 300, 0, 0⟩, 0⟩] ++
        ⟨⟨"A", 14400, .nan, .nan, .fin 320, 0, 0⟩, 10⟩ :: []))[1]?
      = some ⟨⟨⟨"A", 14400, .nan, .nan, .fin 320, 0, 0⟩, 10⟩, .fin 2⟩ := by
  have := C2_gain_formula.1 [⟨⟨"A", 0, .nan, .nan, .fin 300, 0, 0⟩, 0⟩] []
    ⟨⟨"A", 14400, .nan, .nan, .fin 320, 0, 0⟩, 10⟩ ⟨⟨"A", 0, .nan, .nan, .fin 300, 0, 0⟩, 0⟩
    300 320 (by with_unfolding_all decide) rfl rfl (by decide)
  norm_num at this
  exact this

theorem splitOnChar_ne_nil (sep : Char) : ∀ cs, splitOnChar sep cs ≠ [] := by
  intro cs
  induction cs with
  | nil => simp [splitOnChar]
  | cons c cs ih =>
    unfold splitOnChar
    by_cases h : c = sep
    · simp [h]
    · simp only [if_neg h]
      rcases e : splitOnChar sep cs with _ | ⟨p, ps⟩
      · exact absurd e ih
      · simp

theorem splitOnChar_length (sep : Char) :
    ∀ cs : List Char, (splitOnChar sep cs).length = cs.count sep + 1 := by
  intro cs
  induction cs with
  | nil => simp [splitOnChar]
  | cons c cs ih =>
    unfold splitOnChar
    by_cases h : c = sep
    · subst h
      simp [List.count_cons, ih]
    · simp only [if_neg h]
      rcases e : splitOnChar sep cs with _ | ⟨p, ps⟩
      · exact absurd e (splitOnChar_ne_nil sep cs)
      · have : ps.length + 1 = cs.count sep + 1 := by
          rw [← ih, e]
          rfl
        simp [List.count_cons, h, Nat.succ_inj.mp this]

theorem count_dot_map_commaToDot :
    ∀ cs : List Char, (cs.map commaToDot).count '.' = cs.count '.' + cs.count ',' := by
  intro cs
  induction cs with
  | nil => rfl
  | cons c cs ih =>
    by_cases hc : c = ','
    · subst hc
      simp [commaToDot, List.count_cons, ih]
      omega
    · by_cases hd : c = '.'
      · subst hd
        simp [commaToDot, List.count_cons, ih]
        omega
      · simp [commaToDot, if_neg hc, List.count_cons, hc, hd, ih]

theorem parseFloatQ_none_of_two_dots (cs : List Char)
    (h : 2 ≤ cs.count '.') : parseFloatQ cs = none := by
  unfold parseFloatQ
  rcases e : splitOnChar '.' cs with _ | ⟨a, _ | ⟨b, _ | ⟨c, rest⟩⟩⟩
  · exact absurd e (splitOnChar_ne_nil '.' cs)
  · have := splitOnChar_length '.' cs
    rw [e] at this
    simp at this
    omega
  · have := splitOnChar_length '.' cs
    rw [e] at this
    simp at this
    omega
  · rfl

/-- C4: for every raw numeric field value, normalization first replaces
the decimal comma with a decimal point — the input string "12,5"
normalizes to 12.5 (= 25/2) — and any value that still fails numeric
conversion yields null (NaN) for that field, without rejecting the
record (row retention depends only on date validity) and without
raising (the conversion is a total function into NaN-or-finite). -/
theorem C4_numeric_coercion :
    (to_numeric_cell (some "12,5") = .fin (25 / 2)) ∧
    (∀ (s : String) (q : ℚ), parseFloatQ (s.data.map commaToDot) = some q →
      to_numeric_cell (some s) = .fin q) ∧
    (∀ s : String, parseFloatQ (s.data.map commaToDot) = none →
      to_numeric_cell (some s) = .nan) ∧
    (∀ c : Option String, to_numeric_cell c = .nan ∨ ∃ q, to_numeric_cell c = .fin q) ∧
    (∀ rows : List RawRow,
      (normalizeRows rows).length
        = (rows.filter (fun r => decide (r.date ≠ RawDate.invalid))).length) := by
  refine ⟨by with_unfolding_all decide, ?_, ?_, ?_, ?_⟩
  · intro s q h
    unfold to_numeric_cell
    dsimp only
    rw [h]
  · intro s h
    unfold to_numeric_cell
    dsimp only
    rw [h]
  · intro c
    rcases c with _ | s
    · exact Or.inl rfl
    · rcases h : parseFloatQ (s.data.map commaToDot) with _ | q
      · refine Or.inl ?_
        unfold to_numeric_cell
        dsimp only
        rw [h]
      · refine Or.inr ⟨q, ?_⟩
        unfold to_numeric_cell
        dsimp only
        rw [h]
  · intro rows
    induction rows with
    | nil => rfl
    | cons r rs ih =>
      simp only [normalizeRows, List.filterMap_cons, List.filter_cons] at *
      rcases hd : r.date with t | _
      · simp only [hd]
        simp [ih]
      · simp only [hd]
        simp [ih]

/-- Witness for C4 at a concrete unparseable value: "abc" fails
conversion after comma replacement and so normalizes to NaN. -/
theorem C4_witness :
    to_numeric_cell (some "abc") = .nan :=
  C4_numeric_coercion.2.2.1 "abc" (by with_unfolding_all decide)

/-- C10 (implicit): the numeric normalizer replaces every comma in the
source string with a dot, not only a decimal comma; hence for any input
string containing both a comma and a dot — e.g. the thousands-separated
"1,234.5" — the replacement yields a string with at least two decimal
points ("1.234.5"), which fails numeric conversion, and the field
normalizes to null (NaN) rather than to the intended number. -/
theorem C10_thousands_separator_null :
    (String.mk (("1,234.5" : String).data.map commaToDot) = "1.234.5") ∧
    (to_numeric_cell (some "1,234.5") = .nan) ∧
    (∀ s : String, ',' ∈ s.data → '.' ∈ s.data →
      parseFloatQ (s.data.map commaToDot) = none ∧
      to_numeric_cell (some s) = .nan) := by
  refine ⟨by with_unfolding_all decide, by with_unfolding_all decide, ?_⟩
  intro s h1 h2
  have hcount : 2 ≤ (s.data.map commaToDot).count '.' := by
    rw [count_dot_map_commaToDot]
    have c1 : 1 ≤ s.data.count ',' := List.count_pos_iff.mpr h1
    have c2 : 1 ≤ s.data.count '.' := List.count_pos_iff.mpr h2
    omega
  have hnone := parseFloatQ_none_of_two_dots _ hcount
  refine ⟨hnone, ?_⟩
  unfold to_numeric_cell
  dsimp only
  rw [hnone]

/-- Witness for C10 at the concrete input "1,234.5": both a comma and a
dot are present, and the field normalizes to NaN. -/
theorem C10_witness :
    parseFloatQ (("1,234.5" : String).data.map commaToDot) = none ∧
    to_numeric_cell (some "1,234.5") = .nan :=
  C10_thousands_separator_null.2.2 "1,234.5"
    (by with_unfolding_all decide) (by with_unfolding_all decide)

/-- C5: the duration normalizer is total and never raises: every input
yields either the `H*60 + M + S/60` value (when the input is a string
that splits on ':' into exactly three integer parts, or a structured
time-of-day value) or 0 (null, malformed strings, and every other
shape); "01:30:00" yields 90.0 minutes. -/
theorem C5_tempo_total :
    (tempo_para_minutos (.str "01:30:00") = 90) ∧
    (tempo_para_minutos .null = 0) ∧
    (tempo_para_minutos .other = 0) ∧
    (∀ h m s : ℕ, tempo_para_minutos (.tod h m s)
        = (h : ℚ) * 60 + (m : ℚ) + (s : ℚ) / 60) ∧
    (∀ (t : String) (a b c : List Char) (h m s : ℤ),
        splitOnChar ':' t.data = [a, b, c] →
        parseIntQ a = some h → parseIntQ b = some m → parseIntQ c = some s →
        tempo_para_minutos (.str t) = (h : ℚ) * 60 + (m : ℚ) + (s : ℚ) / 60) ∧
    (∀ t : String,
        tempo_para_minutos (.str t) = 0 ∨
        ∃ (a b c : List Char) (h m s : ℤ),
          splitOnChar ':' t.data = [a, b, c] ∧
          parseIntQ a = some h ∧ parseIntQ b = some m ∧ parseIntQ c = some s ∧
          tempo_para_minutos (.str t) = (h : ℚ) * 60 + (m : ℚ) + (s : ℚ) / 60) := by
  refine ⟨by with_unfolding_all decide, rfl, rfl, fun h m s => rfl, ?_, ?_⟩
  · intro t a b c h m s hsplit ha hb hc
    unfold tempo_para_minutos
    dsimp only
    rw [hsplit]
    dsimp only
    rw [ha, hb, hc]
  · intro t
    rcases e : splitOnChar ':' t.data with _ | ⟨a, _ | ⟨b, _ | ⟨c, _ | ⟨d, rest⟩⟩⟩⟩
    · refine Or.inl ?_
      unfold tempo_para_minutos
      dsimp only
      rw [e]
    · refine Or.inl ?_
      unfold tempo_para_minutos
      dsimp only
      rw [e]
    · refine Or.inl ?_
      unfold tempo_para_minutos
      dsimp only
      rw [e]
    · rcases ha : parseIntQ a with _ | h
      · refine Or.inl ?_
        unfold tempo_para_minutos
        dsimp only
        rw [e]
        dsimp only
        rw [ha]
      · rcases hb : parseIntQ b with _ | m
        · refine Or.inl ?_
          unfold tempo_para_minutos
          dsimp only
          rw [e]
          dsimp only
          rw [ha, hb]
        · rcases hc : parseIntQ c with _ | s
          · refine Or.inl ?_
            unfold tempo_para_minutos
            dsimp only
            rw [e]
            dsimp only
            rw [ha, hb, hc]
          · have hv : tempo_para_minutos (.str t)
                = (h : ℚ) * 60 + (m : ℚ) + (s : ℚ) / 60 := by
              unfold tempo_para_minutos
              dsimp only
              rw [e]
              dsimp only
              rw [ha, hb, hc]
            exact Or.inr ⟨a, b, c, h, m, s, rfl, ha, hb, hc, hv⟩
    · refine Or.inl ?_
      unfold tempo_para_minutos
      dsimp only
      rw [e]

/-- Witness for C5 at concrete inputs: the string "01:30:00" splits
into three integer parts and yields 1*60 + 30 + 0/60 minutes. -/
theorem C5_witness :
    tempo_para_minutos (.str "01:30:00")
      = ((1 : ℤ) : ℚ) * 60 + ((30 : ℤ) : ℚ) + ((0 : ℤ) : ℚ) / 60 :=
  C5_tempo_total.2.2.2.2.1 "01:30:00" ['0', '1'] ['3', '0'] ['0', '0'] 1 30 0
    (by with_unfolding_all decide) (by with_unfolding_all decide)
    (by with_unfolding_all decide) (by with_unfolding_all decide)

theorem mem_sortRows {r : NRow} {l : List NRow} : r ∈ sortRows l ↔ r ∈ l :=
  (List.perm_insertionSort nrowLe l).mem_iff

theorem mem_addDias {r' : DRow} {l : List NRow} (h : r' ∈ addDias l) :
    r'.toNRow ∈ l := by
  unfold addDias at h
  rcases List.mem_map.mp h with ⟨r, hr, he⟩
  rw [← he]
  exact hr

theorem mem_addGPDAux_toDRow (g : Option DRow → DRow → PFloat) :
    ∀ (l seen : List DRow) (r' : GRow),
      r' ∈ addGPDAux g seen l → r'.toDRow ∈ l := by
  intro l
  induction l with
  | nil =>
    intro seen r' h
    simp [addGPDAux] at h
  | cons r rs ih =>
    intro seen r' h
    simp only [addGPDAux, List.mem_cons] at h ⊢
    rcases h with h | h
    · subst h
      exact Or.inl rfl
    · exact Or.inr (ih _ _ h)

theorem analiseRowsM_ok_mem {sch : Schema} :
    ∀ {rows : List RawRow} {opts : List (Option NRow)},
      analiseRowsM sch rows = .ok opts →
      ∀ o ∈ opts, ∃ r ∈ rows, analiseNRow sch r = .ok o := by
  intro rows
  induction rows with
  | nil =>
    intro opts h o ho
    unfold analiseRowsM at h
    cases h
    simp at ho
  | cons r rs ih =>
    intro opts h o ho
    unfold analiseRowsM at h
    rcases h1 : analiseNRow sch r with e | o1 <;> rw [h1] at h
    · cases h
    · rcases h2 : analiseRowsM sch rs with e | os <;> rw [h2] at h
      · cases h
      · cases h
        rcases List.mem_cons.mp ho with ho | ho
        · exact ⟨r, List.mem_cons_self r rs, ho ▸ h1⟩
        · rcases ih h2 o ho with ⟨r', hr', he'⟩
          exact ⟨r', List.mem_cons_of_mem r hr', he'⟩

theorem analiseNRow_ok_some_bebedouro {sch : Schema} {raw : RawRow} {nr : NRow}
    (hbeb : sch.hasBebedouro = false)
    (h : analiseNRow sch raw = .ok (some nr)) : nr.bebedouro = .nan := by
  unfold analiseNRow analiseNumericRow at h
  have hb : analiseNumericField sch.hasBebedouro raw.bebedouro = .ok .nan := by
    unfold analiseNumericField
    rw [hbeb]
    rfl
  rw [hb] at h
  rcases hc : analiseNumericField sch.hasCocho raw.cocho with e | c <;> rw [hc] at h
  · cases h
  · rcases hp : analiseNumericField sch.hasPeso raw.peso with e | p <;> rw [hp] at h
    · cases h
    · dsimp only at h
      rcases hd : raw.date with t | _ <;> rw [hd] at h
      · cases h
        rfl
      · cases h

theorem filter_date_length :
    ∀ rows : List RawRow,
      rows.length
        = (rows.filter (fun r => decide (r.date ≠ RawDate.invalid))).length
          + (rows.filter (fun r => decide (r.date = RawDate.invalid))).length := by
  intro rows
  induction rows with
  | nil => rfl
  | cons r rs ih =>
    simp only [List.filter_cons, List.length_cons]
    rcases hd : r.date with t | _ <;> simp [hd, ih] <;> omega

/-- C6: every raw record whose date value fails to parse is
unconditionally dropped during normalization, the number of such
dropped records is counted and reported to the caller, and every
record in the normalizer's output has a non-null (successfully parsed)
timestamp.  Stated on the date-parsing block of
src/analise_consumo_completa.py lines 25-30 (the variant that reports
the count) and on the full analise normalizer, which returns the same
count. -/
theorem C6_invalid_dates_dropped_and_counted :
    (∀ rows : List RawRow,
      (analiseDates rows).1 = rows.filter (fun r => decide (r.date ≠ RawDate.invalid)) ∧
      (analiseDates rows).2
        = (rows.filter (fun r => decide (r.date = RawDate.invalid))).length ∧
      rows.length = (analiseDates rows).1.length + (analiseDates rows).2 ∧
      (∀ r ∈ (analiseDates rows).1, ∃ t, r.date = RawDate.parsed t)) ∧
    (∀ (sch : Schema) (rows : List RawRow) (out : List GRow)
        (w : List String) (n : ℕ),
      analise_normalize sch rows = .ok (out, w, n) →
      n = (rows.filter (fun r => decide (r.date = RawDate.invalid))).length) := by
  constructor
  · intro rows
    refine ⟨rfl, rfl, filter_date_length rows, ?_⟩
    intro r hr
    unfold analiseDates at hr
    have := List.of_mem_filter hr
    rcases hd : r.date with t | _
    · exact ⟨t, rfl⟩
    · rw [hd] at this
      simp at this
  · intro sch rows out w n h
    unfold analise_normalize at h
    rcases hm : analiseRowsM sch rows with e | opts <;> rw [hm] at h
    · cases h
    · dsimp only at h
      rcases hTAG : sch.hasTAG with _ | _ <;> rw [hTAG] at h
      · simp at h
      · simp only [if_pos rfl] at h
        cases h
        rfl

/-- Witness for C6 on a concrete dataset: of two raw rows one has an
unparseable date, the analise normalizer succeeds, and the count it
reports equals 1, the number of dropped rows. -/
theorem C6_witness :
    (1 : ℕ) = (([⟨"A", .parsed 0, none, none, none, .null, .null⟩,
        ⟨"B", .invalid, none, none, none, .null, .null⟩] : List RawRow).filter
          (fun r => decide (r.date = RawDate.invalid))).length :=
  C6_invalid_dates_dropped_and_counted.2 ⟨true, true, true, true, true, true⟩
    [⟨"A", .parsed 0, none, none, none, .null, .null⟩,
     ⟨"B", .invalid, none, none, none, .null, .null⟩]
    [⟨⟨⟨"A", 0, .nan, .nan, .nan, 0, 0⟩, 0⟩, .fin 0⟩] [] 1
    (by with_unfolding_all rfl)

/-- C8: a missing required TAG column makes the analise normalizer fail
fatally with zero output records (it returns an error, producing no
dataframe), while a missing optional water-intake column
(`Consumo_bebedouro`) lets normalization succeed with that field NaN
(null) on every output record and a tolerance notice naming the column
among the printed warnings. -/
theorem C8_schema_tolerance :
    (∀ (sch : Schema) (rows : List RawRow), sch.hasTAG = false →
      ∃ e, analise_normalize sch rows = .error e) ∧
    (∀ (sch : Schema) (rows : List RawRow) (out : List GRow)
        (w : List String) (n : ℕ),
      sch.hasBebedouro = false →
      analise_normalize sch rows = .ok (out, w, n) →
      avisoColuna "Consumo_bebedouro" ∈ w ∧
      ∀ r ∈ out, r.bebedouro = .nan) := by
  constructor
  · intro sch rows hTAG
    unfold analise_normalize
    rcases hm : analiseRowsM sch rows with e | opts
    · exact ⟨e, rfl⟩
    · refine ⟨"Coluna TAG nao encontrada no DataFrame.", ?_⟩
      dsimp only
      rw [hTAG]
      rfl
  · intro sch rows out w n hbeb h
    unfold analise_normalize at h
    rcases hm : analiseRowsM sch rows with e | opts <;> rw [hm] at h
    · cases h
    · dsimp only at h
      rcases hTAG : sch.hasTAG with _ | _ <;> rw [hTAG] at h
      · simp at h
      · simp only [if_pos rfl] at h
        cases h
        constructor
        · unfold analiseWarnings
          rw [hbeb]
          simp
        · intro r hr
          have hd := mem_addGPDAux_toDRow (gpdOfAnalise sch.hasPeso) _ _ _ hr
          have hn := mem_addDias hd
          have hn2 := mem_sortRows.mp hn
          rcases List.mem_filterMap.mp hn2 with ⟨o, ho, hoe⟩
          rcases o with _ | nr
          · cases hoe
          · cases hoe
            rcases analiseRowsM_ok_mem hm _ ho with ⟨raw, _, hraw⟩
            exact analiseNRow_ok_some_bebedouro hbeb hraw

/-- Witness for C8 on a concrete schema and dataset: with the TAG
column present and the water-intake column absent, the analise
normalizer succeeds on one row, emits the notice naming
`Consumo_bebedouro`, and the water field of the output record is
NaN. -/
theorem C8_witness :
    avisoColuna "Consumo_bebedouro" ∈ [avisoColuna "Consumo_bebedouro"] ∧
    ∀ r ∈ ([⟨⟨⟨"A", 0, .nan, .nan, .fin 300, 0, 0⟩, 0⟩, .fin 0⟩] : List GRow),
      r.bebedouro = .nan :=
  C8_schema_tolerance.2 ⟨true, true, false, true, true, true⟩
    [⟨"A", .parsed 0, none, none, some "300", .null, .null⟩]
    [⟨⟨⟨"A", 0, .nan, .nan, .fin 300, 0, 0⟩, 0⟩, .fin 0⟩]
    [avisoColuna "Consumo_bebedouro"] 0 rfl (by with_unfolding_all rfl)

/-- Counterexample to C9: animal "A" has one record on day 0 and animal
"B" one record on day 5; with the window [day 4, day 6] and both
animals selected, the summary table contains a row only for "B" — the
in-window-empty animal "A" is silently omitted, not reported as a row
with all-null aggregates as the claim states. -/
theorem C9_counterexample :
    ((resumo
        [⟨⟨⟨"A", 0, .nan, .nan, .fin 300, 0, 0⟩, 0⟩, .fin 0⟩,
         ⟨⟨⟨"B", 7200, .nan, .nan, .fin 200, 0, 0⟩, 0⟩, .fin 0⟩]
        5760 8640 ["A", "B"]).map (fun r => r.tag)) = ["B"] := by
  with_unfolding_all decide

/-- C9 (amended): for every queried date window and identifier subset,
an included animal with zero records inside the window is silently
omitted from the summary table (no row is produced for it, rather than
a row of all-null aggregates), and aggregation never crashes: the
summary has a row for an identifier exactly when that identifier is
selected and has at least one record inside the window. -/
theorem C9_empty_window_animal_omitted :
    ∀ (df : List GRow) (s e : ℤ) (sel : List String) (t : String),
      (∃ row ∈ resumo df s e sel, row.tag = t) ↔
      (t ∈ sel ∧ ∃ r ∈ df, r.tag = t ∧ s ≤ r.data ∧ r.data ≤ e) := by
  intro df s e sel t
  have hsel : ∀ r : GRow, r ∈ df_selected df s e sel ↔
      (r ∈ df ∧ r.tag ∈ sel ∧ s ≤ r.data ∧ r.data ≤ e) := by
    intro r
    unfold df_selected
    simp only [List.mem_filter, Bool.and_eq_true, decide_eq_true_eq,
      List.elem_iff]
    tauto
  constructor
  · rintro ⟨row, hrow, htag⟩
    unfold resumo at hrow
    rcases List.mem_map.mp hrow with ⟨t', ht', he⟩
    have htag' : t' = t := by
      rw [← htag, ← he]
    subst htag'
    have := (List.perm_insertionSort strLe _).mem_iff.mp ht'
    rw [List.mem_dedup] at this
    rcases List.mem_map.mp this with ⟨r, hr, hre⟩
    rcases (hsel r).mp hr with ⟨hdf, hs, h1, h2⟩
    exact ⟨hre ▸ hs, r, hdf, hre, h1, h2⟩
  · rintro ⟨hs, r, hdf, htag, h1, h2⟩
    have hr : r ∈ df_selected df s e sel :=
      (hsel r).mpr ⟨hdf, htag ▸ hs, h1, h2⟩
    have hmem : t ∈ ((df_selected df s e sel).map (fun r => r.tag)).dedup := by
      rw [List.mem_dedup]
      exact List.mem_map.mpr ⟨r, hr, htag⟩
    have hmem2 := (List.perm_insertionSort strLe _).mem_iff.mpr hmem
    unfold resumo
    refine ⟨_, List.mem_map.mpr ⟨t, hmem2, rfl⟩, rfl⟩

/-- Witness for the amended C9: with the window [day 4, day 6] and both
animals selected, "B" (with an in-window record) does get a summary
row. -/
theorem C9_witness :
    ∃ row ∈ resumo
        [⟨⟨⟨"A", 0, .nan, .nan, .fin 300, 0, 0⟩, 0⟩, .fin 0⟩,
         ⟨⟨⟨"B", 7200, .nan, .nan, .fin 200, 0, 0⟩, 0⟩, .fin 0⟩]
        5760 8640 ["A", "B"], row.tag = "B" :=
  (C9_empty_window_animal_omitted _ 5760 8640 ["A", "B"] "B").mpr
    ⟨by decide, ⟨⟨⟨"B", 7200, .nan, .nan, .fin 200, 0, 0⟩, 0⟩, .fin 0⟩,
      List.mem_cons.mpr (Or.inr (List.mem_cons_self _ _)), rfl, by decide, by decide⟩

theorem dkey_aggRow (k : String × ℤ) (g : List DRow) : dkey (aggRow k g) = k := by
  cases k
  rfl

theorem consolidate_map_dkey (l : List DRow) :
    (consolidate l).map dkey = (l.map dkey).dedup.insertionSort keyLe := by
  unfold consolidate
  rw [List.map_map]
  have : dkey ∘ (fun k => aggRow k (l.filter (fun r => dkey r = k))) = id := by
    funext k
    exact dkey_aggRow k _
  rw [this, List.map_id]

theorem mem_sorted_dedup_keys {k : String × ℤ} {ks : List (String × ℤ)} :
    k ∈ ks.dedup.insertionSort keyLe ↔ k ∈ ks := by
  rw [(List.perm_insertionSort keyLe ks.dedup).mem_iff, List.mem_dedup]

theorem nodup_consolidate_keys (l : List DRow) :
    ((consolidate l).map dkey).Nodup := by
  rw [consolidate_map_dkey]
  exact (List.perm_insertionSort keyLe _).nodup_iff.mpr (List.nodup_dedup _)

theorem mem_consolidate {r' : DRow} {l : List DRow} :
    r' ∈ consolidate l ↔
      ∃ k, k ∈ l.map dkey ∧ r' = aggRow k (l.filter (fun r => dkey r = k)) := by
  unfold consolidate
  rw [List.mem_map]
  constructor
  · rintro ⟨k, hk, he⟩
    exact ⟨k, mem_sorted_dedup_keys.mp hk, he.symm⟩
  · rintro ⟨k, hk, he⟩
    exact ⟨k, mem_sorted_dedup_keys.mpr hk, he.symm⟩

theorem filter_eq_singleton_of_nodup {α : Type} [DecidableEq α] :
    ∀ (l : List α), l.Nodup → ∀ a ∈ l, l.filter (fun x => decide (x = a)) = [a] := by
  intro l
  induction l with
  | nil =>
    intro _ a ha
    simp at ha
  | cons b bs ih =>
    intro hnd a ha
    rcases List.nodup_cons.mp hnd with ⟨hb, hnd'⟩
    rcases List.mem_cons.mp ha with ha | ha
    · subst ha
      have hnone : bs.filter (fun x => decide (x = a)) = [] := by
        rw [List.filter_eq_nil_iff]
        intro x hx
        simp only [decide_eq_true_eq]
        intro hxa
        exact hb (hxa ▸ hx)
      simp [List.filter_cons, hnone]
    · have hba : b ≠ a := fun h => hb (h ▸ ha)
      simp [List.filter_cons, hba, ih hnd' a ha]

theorem dropDupFirstAux_eq_of_nodup :
    ∀ (l : List DRow) (seen : List (String × ℤ)),
      (∀ r ∈ l, dkey r ∉ seen) → (l.map dkey).Nodup →
      dropDupFirstAux seen l = l := by
  intro l
  induction l with
  | nil => intro seen _ _; rfl
  | cons r rs ih =>
    intro seen hseen hnd
    rw [List.map_cons] at hnd
    rcases List.nodup_cons.mp hnd with ⟨hr, hnd'⟩
    unfold dropDupFirstAux
    rw [if_neg (hseen r (List.mem_cons_self r rs))]
    congr 1
    refine ih _ ?_ hnd'
    intro r' hr' hmem
    rcases List.mem_cons.mp hmem with h | h
    · exact hr (h ▸ List.mem_map_of_mem dkey hr')
    · exact hseen r' (List.mem_cons_of_mem r hr') h

theorem drop_duplicates_first_consolidate (l : List DRow) :
    drop_duplicates_first (consolidate l) = consolidate l :=
  dropDupFirstAux_eq_of_nodup _ [] (by simp) (nodup_consolidate_keys l)

theorem addGPDAux_map_toDRow (g : Option DRow → DRow → PFloat) :
    ∀ (l seen : List DRow),
      (addGPDAux g seen l).map (fun r => r.toDRow) = l := by
  intro l
  induction l with
  | nil => intro seen; rfl
  | cons r rs ih =>
    intro seen
    simp only [addGPDAux, List.map_cons]
    rw [ih]

theorem foldr_padd_fin :
    ∀ qs : List ℚ, (qs.map PFloat.fin).foldr padd (.fin 0) = .fin qs.sum := by
  intro qs
  induction qs with
  | nil => simp
  | cons q qs ih =>
    simp only [List.map_cons, List.foldr_cons, ih, List.sum_cons]
    rfl

theorem pmean_all_fin (qs : List ℚ) (h : qs ≠ []) :
    pmean (qs.map PFloat.fin) = .fin (qs.sum / qs.length) := by
  unfold pmean
  have hfilter : (qs.map PFloat.fin).filter (fun x => !x.isNanB) = qs.map PFloat.fin := by
    rw [List.filter_eq_self]
    intro x hx
    rcases List.mem_map.mp hx with ⟨q, _, he⟩
    rw [← he]
    rfl
  rw [hfilter]
  dsimp only
  have hie : (List.map PFloat.fin qs).isEmpty = false := by
    simp [List.isEmpty_iff, h]
  rw [hie]
  simp only [Bool.false_eq_true, if_false]
  rw [foldr_padd_fin, List.length_map]
  have hlen : ((qs.length : ℚ)) ≠ 0 := by
    simp [List.length_eq_zero, h]
  unfold pdiv
  dsimp only
  rw [if_neg hlen]

/-- C3: for every (animal, calendar-date) pair with more than one
record, the pipeline collapses the bucket into a single record whose
numeric fields are the (NaN-skipping) means of the bucket's values —
when all values are present this is the arithmetic mean, e.g. feed
intakes 10.0 and 12.0 become 11.0 — and since consolidation leaves the
(TAG, Data) keys duplicate-free, the defensive
`drop_duplicates(keep='first')` pass keeps every (first and only)
occurrence and discards zero rows. -/
theorem C3_consolidation_mean :
    (∀ (l : List DRow) (k : String × ℤ),
        1 < (l.filter (fun r => dkey r = k)).length →
        (consolidate l).filter (fun r => dkey r = k)
          = [aggRow k (l.filter (fun r => dkey r = k))]) ∧
    (∀ (k : String × ℤ) (g : List DRow) (qs : List ℚ), qs ≠ [] →
        g.map (fun r => r.cocho) = qs.map PFloat.fin →
        (aggRow k g).cocho = .fin (qs.sum / qs.length)) ∧
    (∀ l : List DRow, ((consolidate l).map dkey).Nodup ∧
        drop_duplicates_first (consolidate l) = consolidate l) ∧
    ((load_data [⟨"A", .parsed 0, some "10.0", none, none, .null, .null⟩,
                 ⟨"A", .parsed 0, some "12.0", none, none, .null, .null⟩]).map
        (fun r => (r.tag, r.data, r.cocho))
      = [("A", 0, .fin 11)]) := by
  refine ⟨?_, ?_, fun l => ⟨nodup_consolidate_keys l, drop_duplicates_first_consolidate l⟩,
    by with_unfolding_all decide⟩
  · intro l k hlen
    have hne : l.filter (fun r => dkey r = k) ≠ [] := by
      intro h
      rw [h] at hlen
      simp at hlen
    rcases List.exists_mem_of_ne_nil _ hne with ⟨r, hr⟩
    have hkmem : k ∈ l.map dkey := by
      have h1 := List.mem_filter.mp hr
      have h2 : dkey r = k := by simpa using h1.2
      exact h2 ▸ List.mem_map_of_mem dkey h1.1
    unfold consolidate
    rw [List.filter_map]
    have hcongr :
        ((l.map dkey).dedup.insertionSort keyLe).filter
            ((fun r => decide (dkey r = k)) ∘
              (fun k' => aggRow k' (l.filter (fun r => dkey r = k'))))
          = ((l.map dkey).dedup.insertionSort keyLe).filter
              (fun k' => decide (k' = k)) := by
      refine List.filter_congr ?_
      intro k' _
      simp [Function.comp, dkey_aggRow]
    rw [hcongr]
    rw [filter_eq_singleton_of_nodup _
      ((List.perm_insertionSort keyLe _).nodup_iff.mpr (List.nodup_dedup _))
      k (mem_sorted_dedup_keys.mpr hkmem)]
    rfl
  · intro k g qs hne hmap
    have : (aggRow k g).cocho = pmean (g.map (fun r => r.cocho)) := rfl
    rw [this, hmap, pmean_all_fin qs hne]

/-- Witness for C3 on a concrete bucket: a two-row (TAG, Data) group
with feed intakes 10 and 12 is condensed by the consolidation stage to
the single aggregated record for its key. -/
theorem C3_witness :
    (consolidate
        [⟨⟨"A", 0, .fin 10, .nan, .nan, 0, 0⟩, 0⟩,
         ⟨⟨"A", 0, .fin 12, .nan, .nan, 0, 0⟩, 0⟩]).filter
        (fun r => dkey r = ("A", 0))
      = [aggRow ("A", 0)
          ([⟨⟨"A", 0, .fin 10, .nan, .nan, 0, 0⟩, 0⟩,
            ⟨⟨"A", 0, .fin 12, .nan, .nan, 0, 0⟩, 0⟩].filter
            (fun r => dkey r = ("A", 0)))] :=
  C3_consolidation_mean.1
    [⟨⟨"A", 0, .fin 10, .nan, .nan, 0, 0⟩, 0⟩,
     ⟨⟨"A", 0, .fin 12, .nan, .nan, 0, 0⟩, 0⟩] ("A", 0)
    (by with_unfolding_all decide)

instance : Std.Antisymm (fun a b : ℤ => a ≤ b) :=
  ⟨fun h1 h2 => Int.le_antisymm h1 h2⟩

theorem int_min?_eq_some_iff {a : ℤ} {xs : List ℤ} :
    xs.min? = some a ↔ a ∈ xs ∧ ∀ b ∈ xs, a ≤ b :=
  List.min?_eq_some_iff (fun a => le_refl a) (fun a b => min_choice a b)
    (fun _ _ _ => le_min_iff)

theorem int_min?_exists {xs : List ℤ} (h : xs ≠ []) : ∃ m, xs.min? = some m := by
  rcases xs with _ | ⟨x, xs⟩
  · exact absurd rfl h
  · exact ⟨_, rfl⟩

theorem int_min?_congr {xs ys : List ℤ} (h : ∀ d, d ∈ xs ↔ d ∈ ys) :
    xs.min? = ys.min? := by
  rcases e : xs.min? with _ | m
  · rcases e2 : ys.min? with _ | m2
    · rfl
    · have hm2 := (int_min?_eq_some_iff.mp e2).1
      have hx : m2 ∈ xs := (h m2).mpr hm2
      rcases int_min?_exists (List.ne_nil_of_mem hx) with ⟨m', e'⟩
      rw [e] at e'
      cases e'
  · have he := int_min?_eq_some_iff.mp e
    exact (int_min?_eq_some_iff.mpr
      ⟨(h m).mp he.1, fun b hb => he.2 b ((h b).mpr hb)⟩).symm

/-- The earliest retained date of one TAG in the final dataframe. -/
def gMinData (l : List GRow) (t : String) : Option ℤ :=
  ((l.filter (fun r => r.tag = t)).map (fun r => r.data)).min?

theorem mem_tagData_minData {l : List NRow} {t : String} {d : ℤ} :
    d ∈ ((l.filter (fun r => r.tag = t)).map (fun r => r.data)) ↔
      ∃ r ∈ l, r.tag = t ∧ r.data = d := by
  simp only [List.mem_map, List.mem_filter, decide_eq_true_eq]
  tauto

theorem mem_tagData_gMinData {l : List GRow} {t : String} {d : ℤ} :
    d ∈ ((l.filter (fun r => r.tag = t)).map (fun r => r.data)) ↔
      ∃ r ∈ l, r.tag = t ∧ r.data = d := by
  simp only [List.mem_map, List.mem_filter, decide_eq_true_eq]
  tauto

theorem mem_tagData_consolidate {l : List DRow} {t : String} {d : ℤ} :
    (∃ r' ∈ consolidate l, r'.tag = t ∧ r'.data = d) ↔
      ∃ r ∈ l, r.tag = t ∧ r.data = d := by
  constructor
  · rintro ⟨r', hr', ht, hd⟩
    rcases mem_consolidate.mp hr' with ⟨k, hk, he⟩
    rcases List.mem_map.mp hk with ⟨r, hr, hkey⟩
    refine ⟨r, hr, ?_, ?_⟩
    · have : r'.tag = k.1 := by rw [he]; rfl
      rw [← ht, this, ← hkey]
      rfl
    · have : r'.data = k.2 := by rw [he]; rfl
      rw [← hd, this, ← hkey]
      rfl
  · rintro ⟨r, hr, ht, hd⟩
    refine ⟨aggRow (dkey r) (l.filter (fun x => dkey x = dkey r)),
      mem_consolidate.mpr ⟨dkey r, List.mem_map_of_mem dkey hr, rfl⟩, ?_, ?_⟩
    · rw [← ht]; rfl
    · rw [← hd]; rfl

theorem mem_addDias_iff {l : List NRow} {t : String} {d : ℤ} :
    (∃ r' ∈ addDias l, r'.tag = t ∧ r'.data = d) ↔
      ∃ r ∈ l, r.tag = t ∧ r.data = d := by
  unfold addDias
  constructor
  · rintro ⟨r', hr', ht, hd⟩
    rcases List.mem_map.mp hr' with ⟨r, hr, he⟩
    exact ⟨r, hr, by rw [← ht, ← he], by rw [← hd, ← he]⟩
  · rintro ⟨r, hr, ht, hd⟩
    exact ⟨_, List.mem_map_of_mem _ hr, ht, hd⟩

theorem addDias_dias {l : List NRow} {r' : DRow} (h : r' ∈ addDias l) :
    ∃ m, minData l r'.tag = some m ∧ r'.dias = floorDays (r'.data - m) ∧
      r'.toNRow ∈ l := by
  unfold addDias at h
  rcases List.mem_map.mp h with ⟨r, hr, he⟩
  have hmem : r.data ∈ ((l.filter (fun x => x.tag = r.tag)).map (fun x => x.data)) :=
    mem_tagData_minData.mpr ⟨r, hr, rfl, rfl⟩
  rcases int_min?_exists (List.ne_nil_of_mem hmem) with ⟨m, hm⟩
  refine ⟨m, ?_, ?_, ?_⟩
  · rw [← he]
    exact hm
  · rw [← he]
    show floorDays (r.data - (minData l r.tag).getD 0) = _
    unfold minData
    rw [hm]
    rfl
  · rw [← he]
    exact hr

theorem floorDays_mono {a b : ℤ} (h : a ≤ b) : floorDays a ≤ floorDays b := by
  unfold floorDays
  rw [Int.fdiv_eq_ediv _ (by norm_num), Int.fdiv_eq_ediv _ (by norm_num)]
  exact Int.ediv_le_ediv (by norm_num) h

theorem keyLe_data_le {a b : String × ℤ} (h : keyLe a b) (ht : a.1 = b.1) :
    a.2 ≤ b.2 := by
  unfold keyLe keyLeb at h
  rw [if_pos ht] at h
  simpa using h

theorem consolidate_dias {dl : List DRow} {r' : DRow} (h : r' ∈ consolidate dl) :
    ∃ b ∈ dl, b.tag = r'.tag ∧ b.data = r'.data ∧ r'.dias = b.dias := by
  rcases mem_consolidate.mp h with ⟨k, hk, he⟩
  rcases List.mem_map.mp hk with ⟨r0, hr0, hkey⟩
  have hr0b : r0 ∈ dl.filter (fun r => dkey r = k) :=
    List.mem_filter.mpr ⟨hr0, by simp [hkey]⟩
  rcases e : dl.filter (fun r => dkey r = k) with _ | ⟨b, bs⟩
  · rw [e] at hr0b
    simp at hr0b
  · have hb : b ∈ dl.filter (fun r => dkey r = k) := by
      rw [e]
      exact List.mem_cons_self b bs
    have hbd := List.mem_filter.mp hb
    have hbk : dkey b = k := by simpa using hbd.2
    refine ⟨b, hbd.1, ?_, ?_, ?_⟩
    · have h1 : r'.tag = k.1 := by rw [he]; rfl
      rw [h1, ← hbk]
      rfl
    · have h1 : r'.data = k.2 := by rw [he]; rfl
      rw [h1, ← hbk]
      rfl
    · rw [he]
      show ((dl.filter (fun r => dkey r = k)).map (fun r => r.dias)).headD 0 = b.dias
      rw [e]
      rfl

theorem load_data_toDRow (rows : List RawRow) :
    (load_data rows).map (fun r => r.toDRow)
      = consolidate (addDias (sortRows (normalizeRows rows))) := by
  unfold load_data addGPD
  rw [drop_duplicates_first_consolidate]
  exact addGPDAux_map_toDRow gpdOf _ []

theorem load_data_tagData (rows : List RawRow) (t : String) (d : ℤ) :
    (∃ r ∈ load_data rows, r.tag = t ∧ r.data = d) ↔
      ∃ r ∈ sortRows (normalizeRows rows), r.tag = t ∧ r.data = d := by
  rw [← mem_addDias_iff, ← mem_tagData_consolidate]
  constructor
  · rintro ⟨r, hr, ht, hd⟩
    refine ⟨r.toDRow, ?_, ht, hd⟩
    rw [← load_data_toDRow]
    exact List.mem_map_of_mem _ hr
  · rintro ⟨r', hr', ht, hd⟩
    rw [← load_data_toDRow] at hr'
    rcases List.mem_map.mp hr' with ⟨g, hg, hge⟩
    exact ⟨g, hg, by rw [← hge] at ht; exact ht, by rw [← hge] at hd; exact hd⟩

theorem load_data_gMinData (rows : List RawRow) (t : String) :
    gMinData (load_data rows) t = minData (sortRows (normalizeRows rows)) t := by
  unfold gMinData minData
  refine int_min?_congr ?_
  intro d
  rw [mem_tagData_gMinData, mem_tagData_minData]
  exact load_data_tagData rows t d

theorem load_data_dias (rows : List RawRow) (r : GRow) (hr : r ∈ load_data rows) :
    ∃ m, gMinData (load_data rows) r.tag = some m ∧
      r.dias = floorDays (r.data - m) ∧ m ≤ r.data := by
  have hcl : r.toDRow ∈ consolidate (addDias (sortRows (normalizeRows rows))) := by
    rw [← load_data_toDRow]
    exact List.mem_map_of_mem _ hr
  rcases consolidate_dias hcl with ⟨b, hb, htag, hdata, hdias⟩
  rcases addDias_dias hb with ⟨m, hm, hbdias, _⟩
  refine ⟨m, ?_, ?_, ?_⟩
  · rw [load_data_gMinData]
    have : r.tag = b.tag := htag.symm
    rw [this]
    exact hm
  · show r.toDRow.dias = _
    rw [hdias, hbdias, hdata]
  · have hmem : r.data ∈ (((sortRows (normalizeRows rows)).filter
        (fun x => x.tag = b.tag)).map (fun x => x.data)) := by
      rw [mem_tagData_minData]
      rcases (load_data_tagData rows b.tag r.data).mp
        ⟨r, hr, htag.symm, rfl⟩ with ⟨r0, hr0, h1, h2⟩
      exact ⟨r0, hr0, h1, h2⟩
    exact (int_min?_eq_some_iff.mp hm).2 r.data hmem

/-- C7: for every animal's time series in timestamp order, tenure_days
(`dias_permanencia`) equals the floor of the days elapsed since that
animal's earliest retained record, is 0 at the earliest record, is
always non-negative, and is non-decreasing along the (TAG, Data)-sorted
series. -/
theorem C7_tenure_days :
    ∀ rows : List RawRow,
      (∀ r ∈ load_data rows, ∃ m, gMinData (load_data rows) r.tag = some m ∧
          r.dias = floorDays (r.data - m)) ∧
      (∀ r ∈ load_data rows, 0 ≤ r.dias) ∧
      ((load_data rows).Pairwise (fun a b => a.tag = b.tag → a.dias ≤ b.dias)) ∧
      (∀ t, (∃ r ∈ load_data rows, r.tag = t) →
        ∃ r ∈ load_data rows, r.tag = t ∧ r.dias = 0 ∧
          gMinData (load_data rows) t = some r.data) := by
  intro rows
  refine ⟨?_, ?_, ?_, ?_⟩
  · intro r hr
    rcases load_data_dias rows r hr with ⟨m, h1, h2, _⟩
    exact ⟨m, h1, h2⟩
  · intro r hr
    rcases load_data_dias rows r hr with ⟨m, _, h2, h3⟩
    rw [h2]
    unfold floorDays
    exact Int.fdiv_nonneg (by omega) (by norm_num)
  · have hsorted : List.Pairwise keyLe
        ((consolidate (addDias (sortRows (normalizeRows rows)))).map dkey) := by
      rw [consolidate_map_dkey]
      exact List.sorted_insertionSort keyLe _
    have hcl : (consolidate (addDias (sortRows (normalizeRows rows)))).Pairwise
        (fun a b => keyLe (dkey a) (dkey b)) := List.pairwise_map.mp hsorted
    have hout : (load_data rows).Pairwise
        (fun a b => keyLe (dkey a.toDRow) (dkey b.toDRow)) := by
      refine List.pairwise_map.mp ?_
      have hmm : (load_data rows).map (fun b => dkey b.toDRow)
          = ((load_data rows).map (fun b => b.toDRow)).map dkey := by
        rw [List.map_map]
        rfl
      rw [hmm, load_data_toDRow]
      exact hsorted
    refine hout.imp_of_mem ?_
    intro a b ha hb hk hteq
    rcases load_data_dias rows a ha with ⟨m, hma, hda, _⟩
    rcases load_data_dias rows b hb with ⟨m', hmb, hdb, _⟩
    have hmm : m = m' := by
      rw [hteq] at hma
      exact Option.some.inj (hma.symm.trans hmb)
    have hdata_le : a.data ≤ b.data := keyLe_data_le hk hteq
    rw [hda, hdb, ← hmm]
    exact floorDays_mono (by omega)
  · rintro t ⟨r, hr, ht⟩
    have hmem0 : r.data ∈ (((sortRows (normalizeRows rows)).filter
        (fun x => x.tag = t)).map (fun x => x.data)) :=
      mem_tagData_minData.mpr ((load_data_tagData rows t r.data).mp ⟨r, hr, ht, rfl⟩)
    rcases int_min?_exists (List.ne_nil_of_mem hmem0) with ⟨m, hm⟩
    have hchar := int_min?_eq_some_iff.mp hm
    rcases mem_tagData_minData.mp hchar.1 with ⟨r0, hr0, h1, h2⟩
    rcases (load_data_tagData rows t m).mpr ⟨r0, hr0, h1, h2⟩ with ⟨g, hg, hgt, hgd⟩
    have hmin : minData (sortRows (normalizeRows rows)) t = some m := hm
    refine ⟨g, hg, hgt, ?_, ?_⟩
    · rcases load_data_dias rows g hg with ⟨m₂, hm₂, hgdias, _⟩
      have hgm : gMinData (load_data rows) g.tag = some m := by
        rw [load_data_gMinData, hgt]
        exact hmin
      have hm2m : m₂ = m := Option.some.inj (hm₂.symm.trans hgm)
      rw [hgdias, hgd, hm2m, sub_self]
      decide
    · rw [load_data_gMinData, hgd]
      exact hmin

/-- Witness for C7: in a one-record dataset for animal "A", the
record of the pipeline output has non-negative tenure. -/
theorem C7_witness :
    (0 : ℤ) ≤ (GRow.mk (DRow.mk (NRow.mk "A" 0 .nan .nan (.fin 300) 0 0) 0) (.fin 0)).dias :=
  (C7_tenure_days
    [⟨"A", .parsed 0, none, none, some "300", .null, .null⟩]).2.1 _
    (by with_unfolding_all decide)
